import Mathlib

/-!
Shallow embedding of the fastcache library (cache.go, config.go, errors.go)
and proofs about its specification.

Modelling conventions:
* Go `string` keys are lists of byte values (`List Nat`, each < 256 in practice).
* Go `int64` / `time.Duration` / Unix-nanosecond instants are `Int`; the claims
  never approach the 2^63 overflow boundary, so plain integers are used.
* Stateful methods become explicit state-passing functions on `CacheState`.
* A method that can fail to return normally (a runtime fault such as indexing a
  shard out of range, or the self-deadlock of re-locking a shard lock already
  held by the same call) returns `Option`, with `none` marking that outcome.
* `Cache.Set` in cache.go takes the shard write lock with a deferred unlock and
  calls `evictIfNeeded` before returning, i.e. before the deferred unlock runs;
  `evictFromShard` then takes the same kind of lock on each victim shard.  The
  index of the lock still held by the caller is threaded through as the
  `holding` argument of `evictIfNeeded`, and acquiring a lock already held is
  the `none` (deadlocked) outcome.
* The background reaper goroutine (`cleanupRoutine`) only ever runs
  `cleanupExpired`; its sweeps are modelled as explicit `cleanupExpired` steps.
* The fire-and-forget `go c.Delete(key)` spawned by `Get` on an expired entry
  is a concurrent effect; it is modelled as a separate `Delete` step.
-/

namespace Fastcache

/-- A Go string / key, as its list of byte values. -/
abbrev Key := List Nat

/-- The dynamic values (`interface` payloads) stored in the cache, following the
type dispatch of `calculateSize` in cache.go.  Float payloads are carried as
their IEEE-754 bit pattern, which the cache never inspects; `other` stands for
any payload outside the dispatched types (the cache only ever sees its
interface header, of constant size). -/
inductive GoValue where
  | str (s : List Nat)
  | bytes (b : List Nat)
  | intV (n : Int)
  | floatV (bits : Nat)
  | boolV (b : Bool)
  | other (id : Nat)
deriving DecidableEq

/-- Embeds `calculateSize` from cache.go: key length plus a type-dispatched value
contribution (exact length for strings and byte slices, 8 for integers and
floats, 1 for booleans, the 16-byte interface header for anything else), plus
a fixed 64-byte overhead for the entry and list node. -/
def calculateSize (key : Key) (value : GoValue) : Int :=
  let v : Int :=
    match value with
    | .str s => Int.ofNat s.length
    | .bytes b => Int.ofNat b.length
    | .intV _ => 8
    | .floatV _ => 8
    | .boolV _ => 1
    | .other _ => 16
  Int.ofNat key.length + v + 64

/-- The `never expires` sentinel: an `expiry` field that was left at zero. -/
def never : Int := 0

/-- Embeds `Entry` from cache.go.  The `listNode` handle is implicit in the position
of the entry inside its shard's recency list (see `Shard.entries`). -/
structure Entry where
  key : Key
  value : GoValue
  size : Int
  expiry : Int
deriving DecidableEq

/-- Embeds `Entry.isExpired` from cache.go: `e.expiry > 0 && now > e.expiry`. -/
def Entry.isExpired (now : Int) (e : Entry) : Bool :=
  decide (0 < e.expiry ∧ e.expiry < now)

/-- A shard.  In cache.go a shard holds a `map[string]*Entry` and a recency
`list.List` over the same entries, kept in lockstep under the shard lock; the
pair is embedded as one recency-ordered list of entries (head = most recently
used), with the keyed index given by first-match lookup. -/
structure Shard where
  entries : List Entry
  size : Int
  hitCount : Int
  missCount : Int
deriving DecidableEq

/-- Embeds `newShard` from cache.go. -/
def newShard : Shard :=
  { entries := [], size := 0, hitCount := 0, missCount := 0 }

/-- Embeds `Config` from config.go.  Durations are in nanoseconds. -/
structure Config where
  maxMemoryBytes : Int
  shardCount : Int
  defaultTTL : Int
  cleanupInterval : Int
deriving DecidableEq

/-- Embeds `DefaultConfig` from config.go: 512 MiB, 1024 shards, 1 h TTL, 1 min
cleanup interval (in nanoseconds). -/
def DefaultConfig : Config :=
  { maxMemoryBytes := 512 * 1024 * 1024
    shardCount := 1024
    defaultTTL := 3600000000000
    cleanupInterval := 60000000000 }

/-- Embeds `ErrInvalidConfig` from errors.go. -/
structure ErrInvalidConfig where
  field : String
  message : String
deriving DecidableEq

/-- Embeds `Config.Validate` from config.go.  Returns the first failing check as a
structured error, `none` when the configuration passes.  Note it has no check
on `DefaultTTL`. -/
def Config.Validate (c : Config) : Option ErrInvalidConfig :=
  if c.maxMemoryBytes ≤ 0 then
    some { field := "MaxMemoryBytes", message := "must be greater than 0" }
  else if c.shardCount ≤ 0 then
    some { field := "ShardCount", message := "must be greater than 0" }
  else if 65536 < c.shardCount then
    some { field := "ShardCount", message := "must be less than 65536" }
  else if c.cleanupInterval ≤ 0 then
    some { field := "CleanupInterval", message := "must be greater than 0" }
  else
    none

/-- FNV-1a 32-bit hash over the key bytes (`Cache.hash` in cache.go). -/
def fnv32a (key : Key) : Nat :=
  key.foldl (fun h b => ((h ^^^ (b % 256)) * 16777619) % 4294967296) 2166136261

/-- Go conversion `uint32(n)` of a signed integer: wrap modulo 2^32. -/
def uint32Of (n : Int) : Nat :=
  (n % 4294967296).toNat

/-- Shard selection (`Cache.getShard`): `hash(key) % uint32(ShardCount)`.
For the positive shard counts of every constructed cache this is plain
reduction modulo the shard count. -/
def shardIdx (cfg : Config) (key : Key) : Nat :=
  fnv32a key % uint32Of cfg.shardCount

/-- The data state of a `Cache` (cache.go).  `stopCh` and `wg` only drive the
reaper goroutine and have no data content; the reaper's sweeps appear as
explicit `cleanupExpired` steps. -/
structure CacheState where
  config : Config
  shards : List Shard
  totalSize : Int
  totalHits : Int
  totalMiss : Int
  closed : Bool
deriving DecidableEq

/-- Embeds `New` from cache.go: a nil config is replaced by `DefaultConfig`; the
shard array is allocated and filled with fresh shards.  `New` performs no
validation whatsoever; the only way it can fail to return is the runtime
fault of allocating a negative-length shard slice (`none`). -/
def New (cfgArg : Option Config) : Option CacheState :=
  let config := cfgArg.getD DefaultConfig
  if config.shardCount < 0 then none
  else some
    { config := config
      shards := List.replicate config.shardCount.toNat newShard
      totalSize := 0
      totalHits := 0
      totalMiss := 0
      closed := false }

/-- Keyed index lookup inside a shard: first entry with the given key
(`shard.data[key]`). -/
def lookupEntry (k : Key) : List Entry → Option Entry
  | [] => none
  | e :: rest => if e.key = k then some e else lookupEntry k rest

/-- Remove the (first) entry with the given key from a recency list
(`delete(shard.data, key)` together with `lruList.Remove`). -/
def removeKey (k : Key) : List Entry → List Entry
  | [] => []
  | e :: rest => if e.key = k then rest else e :: removeKey k rest

/-- Sum of the `size` fields of a list of entries. -/
def sumSizes : List Entry → Int
  | [] => 0
  | e :: rest => e.size + sumSizes rest

/-- Sum of the `size` fields of a list of shards. -/
def sumShardSizes : List Shard → Int
  | [] => 0
  | sh :: rest => sh.size + sumShardSizes rest

/-- The expiry computation at the top of `Cache.Set`:
`if len(ttl) > 0 && ttl[0] > 0 { now+ttl } else if DefaultTTL > 0
{ now+DefaultTTL } else { 0 }`. -/
def computeExpiry (now : Int) (ttlArg : Option Int) (defaultTTL : Int) : Int :=
  match ttlArg with
  | some d =>
    if 0 < d then now + d
    else if 0 < defaultTTL then now + defaultTTL else never
  | none =>
    if 0 < defaultTTL then now + defaultTTL else never

/-- The result of `Cache.Set` / `Cache.Close`: nil or `ErrCacheClosed`. -/
inductive SetResult where
  | ok
  | cacheClosed
deriving DecidableEq

/-- Embeds `Cache.evictFromShard(shard, 1)` at shard index `i`: under the shard's
write lock, remove the back (least recently used) entry of the recency list,
if any, deleting it from the index and subtracting its size from the shard
and process-wide counters. -/
def Cache.evictFromShard (σ : CacheState) (i : Nat) : CacheState :=
  match σ.shards[i]? with
  | none => σ
  | some sh =>
    match sh.entries.getLast? with
    | none => σ
    | some victim =>
      { σ with
        shards := σ.shards.set i
          { sh with entries := sh.entries.dropLast, size := sh.size - victim.size }
        totalSize := σ.totalSize - victim.size }

/-- Embeds `Cache.evictIfNeeded` from cache.go: no-op while `totalSize` is within
budget, otherwise evict one entry from each of the first
`max 1 (ShardCount/4)` shards.  `holding` is the index of the shard whose
write lock the caller still holds (as `Cache.Set` does, its deferred unlock
running only after this call): re-locking that shard inside the eviction loop
is the self-deadlock outcome `none`.  Indexing past the end of the shard
array (a config whose `ShardCount` exceeds the real shard count) is the
runtime-fault outcome, also `none`. -/
def Cache.evictIfNeeded (holding : Option Nat) (σ : CacheState) : Option CacheState :=
  if σ.totalSize ≤ σ.config.maxMemoryBytes then some σ
  else
    let m : Nat := max 1 (σ.config.shardCount.toNat / 4)
    if m ≤ σ.shards.length then
      match holding with
      | some j =>
        if j < m then none
        else some ((List.range m).foldl Cache.evictFromShard σ)
      | none => some ((List.range m).foldl Cache.evictFromShard σ)
    else none

/-- Embeds `Cache.Set` from cache.go.  Fails fast with `cacheClosed` on a closed
cache; otherwise computes size and expiry, takes the shard's write lock
(deferred unlock), updates or inserts the entry at the front of the recency
list, adjusts the shard and process-wide sizes, and calls `evictIfNeeded`
while still holding the lock. -/
def Cache.Set (now : Int) (σ : CacheState) (key : Key) (value : GoValue)
    (ttl : Option Int) : Option (CacheState × SetResult) :=
  if σ.closed then some (σ, .cacheClosed)
  else
    let i := shardIdx σ.config key
    let size := calculateSize key value
    let expiry := computeExpiry now ttl σ.config.defaultTTL
    match σ.shards[i]? with
    | none => none
    | some sh =>
      let e : Entry := { key := key, value := value, size := size, expiry := expiry }
      match lookupEntry key sh.entries with
      | some old =>
        let sh1 : Shard :=
          { sh with entries := e :: removeKey key sh.entries
                    size := sh.size + (size - old.size) }
        let σ1 : CacheState :=
          { σ with shards := σ.shards.set i sh1
                   totalSize := σ.totalSize + (size - old.size) }
        (Cache.evictIfNeeded (some i) σ1).map (fun σ2 => (σ2, .ok))
      | none =>
        let sh1 : Shard :=
          { sh with entries := e :: sh.entries, size := sh.size + size }
        let σ1 : CacheState :=
          { σ with shards := σ.shards.set i sh1
                   totalSize := σ.totalSize + size }
        (Cache.evictIfNeeded (some i) σ1).map (fun σ2 => (σ2, .ok))

/-- Embeds `Cache.Get` from cache.go.  On a closed cache: miss, no counter change.
Absent key: shard and global miss counters increment.  Present but expired:
same miss path (the spawned asynchronous delete is a separate `Delete` step).
Otherwise: move the entry to the recency front, increment hit counters,
return the value. -/
def Cache.Get (now : Int) (σ : CacheState) (key : Key) :
    Option (CacheState × Option GoValue) :=
  if σ.closed then some (σ, none)
  else
    let i := shardIdx σ.config key
    match σ.shards[i]? with
    | none => none
    | some sh =>
      match lookupEntry key sh.entries with
      | none =>
        some ({ σ with shards := σ.shards.set i { sh with missCount := sh.missCount + 1 }
                       totalMiss := σ.totalMiss + 1 }, none)
      | some e =>
        if e.isExpired now then
          some ({ σ with shards := σ.shards.set i { sh with missCount := sh.missCount + 1 }
                         totalMiss := σ.totalMiss + 1 }, none)
        else
          some ({ σ with
                    shards := σ.shards.set i
                      { sh with entries := e :: removeKey key sh.entries
                                hitCount := sh.hitCount + 1 }
                    totalHits := σ.totalHits + 1 }, some e.value)

/-- Embeds `Cache.Delete` from cache.go. -/
def Cache.Delete (σ : CacheState) (key : Key) : Option (CacheState × Bool) :=
  if σ.closed then some (σ, false)
  else
    let i := shardIdx σ.config key
    match σ.shards[i]? with
    | none => none
    | some sh =>
      match lookupEntry key sh.entries with
      | none => some (σ, false)
      | some e =>
        some ({ σ with
                  shards := σ.shards.set i
                    { sh with entries := removeKey key sh.entries, size := sh.size - e.size }
                  totalSize := σ.totalSize - e.size }, true)

/-- One shard's part of `Cache.cleanupExpired`: drop every expired entry and
subtract their sizes from the shard size. -/
def Shard.removeExpired (now : Int) (sh : Shard) : Shard :=
  { sh with
    entries := sh.entries.filter (fun e => !(e.isExpired now))
    size := sh.size - sumSizes (sh.entries.filter (fun e => e.isExpired now)) }

/-- Total size of the expired entries across a list of shards. -/
def expiredTotal (now : Int) : List Shard → Int
  | [] => 0
  | sh :: rest =>
    sumSizes (sh.entries.filter (fun e => e.isExpired now)) + expiredTotal now rest

/-- Embeds `Cache.cleanupExpired` from cache.go, the body of one reaper sweep: for
each shard in turn, remove the expired entries and subtract their sizes from
the shard and process-wide counters. -/
def Cache.cleanupExpired (now : Int) (σ : CacheState) : CacheState :=
  { σ with
    shards := σ.shards.map (Shard.removeExpired now)
    totalSize := σ.totalSize - expiredTotal now σ.shards }

/-- Embeds `Cache.Clear` from cache.go: every shard gets a fresh index and recency
list and a zero size, then the process-wide size is zeroed.  Hit and miss
counters are left untouched. -/
def Cache.Clear (σ : CacheState) : CacheState :=
  { σ with
    shards := σ.shards.map (fun sh => { sh with entries := [], size := 0 })
    totalSize := 0 }

/-- Embeds `Cache.Close` from cache.go: compare-and-swap of the closed flag; the
loser of the swap gets `ErrCacheClosed`.  (Signalling and joining the reaper
carries no data state.) -/
def Cache.Close (σ : CacheState) : CacheState × SetResult :=
  if σ.closed then (σ, .cacheClosed) else ({ σ with closed := true }, .ok)

/-- Size-accounting invariant of a single shard: the shard's size counter is
the sum of the sizes of its entries (property P1). -/
def ShardsInv (l : List Shard) : Prop :=
  ∀ sh ∈ l, sh.size = sumSizes sh.entries

/-- The size-accounting invariant: P1 for every shard, and P2, the
process-wide size counter equals the sum of the shard sizes. -/
def Inv (σ : CacheState) : Prop :=
  ShardsInv σ.shards ∧ σ.totalSize = sumShardSizes σ.shards

instance : DecidablePred Inv := fun σ => by
  unfold Inv ShardsInv
  infer_instance

/-- States reachable from a constructed cache by the cache's own operations
(each step a completed call; `cleanupExpired` steps are the reaper's sweeps,
`evictIfNeeded` with no lock held covers the spec's lock-free eviction). -/
inductive Reachable : CacheState → Prop where
  | new (cfgArg : Option Config) (σ : CacheState) :
      New cfgArg = some σ → Reachable σ
  | set (σ σ' : CacheState) (now : Int) (k : Key) (v : GoValue) (ttl : Option Int)
      (r : SetResult) :
      Reachable σ → Cache.Set now σ k v ttl = some (σ', r) → Reachable σ'
  | get (σ σ' : CacheState) (now : Int) (k : Key) (r : Option GoValue) :
      Reachable σ → Cache.Get now σ k = some (σ', r) → Reachable σ'
  | del (σ σ' : CacheState) (k : Key) (b : Bool) :
      Reachable σ → Cache.Delete σ k = some (σ', b) → Reachable σ'
  | clear (σ : CacheState) : Reachable σ → Reachable (Cache.Clear σ)
  | close (σ : CacheState) : Reachable σ → Reachable (Cache.Close σ).1
  | cleanup (σ : CacheState) (now : Int) :
      Reachable σ → Reachable (Cache.cleanupExpired now σ)
  | evict (σ σ' : CacheState) :
      Reachable σ → Cache.evictIfNeeded none σ = some σ' → Reachable σ'

/-- The size of the least-recently-used entry of a shard (0 when empty). -/
def tailSize (sh : Shard) : Int :=
  match sh.entries.getLast? with
  | none => 0
  | some v => v.size

/-- The effect of one eviction visit on one shard: drop the back
(least-recently-used) entry of the recency list when there is one, and charge
its size to the shard's counter; an empty shard is untouched. -/
def evictOne (sh : Shard) : Shard :=
  match sh.entries.getLast? with
  | none => sh
  | some v => { sh with entries := sh.entries.dropLast, size := sh.size - v.size }

/-- Sum of the least-recently-used entry sizes over a list of shards. -/
def tailTotal : List Shard → Int
  | [] => 0
  | sh :: rest => tailSize sh + tailTotal rest

/-! ### Helper lemmas on lists and sums -/

lemma getElem?_some_mem {l : List Shard} {i : Nat} {sh : Shard}
    (h : l[i]? = some sh) : sh ∈ l := by
  have hi : i < l.length := by
    by_contra hc
    rw [List.getElem?_eq_none (by omega)] at h
    exact Option.noConfusion h
  rw [List.getElem?_eq_getElem hi] at h
  cases h
  exact List.getElem_mem hi

lemma getElem?_some_lt {l : List Shard} {i : Nat} {sh : Shard}
    (h : l[i]? = some sh) : i < l.length := by
  by_contra hc
  rw [List.getElem?_eq_none (by omega)] at h
  exact Option.noConfusion h

lemma sumSizes_removeKey (k : Key) (l : List Entry) (e : Entry)
    (h : lookupEntry k l = some e) :
    sumSizes (removeKey k l) = sumSizes l - e.size := by
  induction l with
  | nil => simp [lookupEntry] at h
  | cons a t ih =>
    by_cases hk : a.key = k
    · simp [lookupEntry, hk] at h
      subst h
      simp [removeKey, hk, sumSizes]
    · simp [lookupEntry, hk] at h
      have := ih h
      simp [removeKey, hk, sumSizes]
      omega

lemma sumSizes_dropLast (l : List Entry) (v : Entry) (h : l.getLast? = some v) :
    sumSizes l.dropLast = sumSizes l - v.size := by
  induction l with
  | nil => simp at h
  | cons a t ih =>
    cases t with
    | nil =>
      simp [List.getLast?] at h
      subst h
      simp [sumSizes]
    | cons b t2 =>
      rw [List.getLast?_cons_cons] at h
      have := ih h
      simp [List.dropLast, sumSizes] at *
      omega

lemma sumSizes_filter (p : Entry → Bool) (l : List Entry) :
    sumSizes (l.filter p) + sumSizes (l.filter (fun e => !(p e))) = sumSizes l := by
  induction l with
  | nil => simp [sumSizes]
  | cons a t ih =>
    by_cases hp : p a = true
    · simp [List.filter, hp, sumSizes]
      omega
    · simp only [Bool.not_eq_true] at hp
      simp [List.filter, hp, sumSizes]
      omega

lemma sumShardSizes_set (l : List Shard) (i : Nat) (x sh : Shard)
    (h : l[i]? = some sh) :
    sumShardSizes (l.set i x) = sumShardSizes l - sh.size + x.size := by
  induction l generalizing i with
  | nil => simp at h
  | cons a t ih =>
    cases i with
    | zero =>
      simp at h
      subst h
      simp [List.set, sumShardSizes]
      omega
    | succ j =>
      simp at h
      have := ih j h
      simp [List.set, sumShardSizes]
      omega

lemma set_self (l : List Shard) (i : Nat) (sh : Shard) (h : l[i]? = some sh) :
    l.set i sh = l := by
  induction l generalizing i with
  | nil => simp at h
  | cons a t ih =>
    cases i with
    | zero => simp at h; subst h; simp [List.set]
    | succ j => simp at h; simp [List.set, ih j h]

lemma shardsInv_set {l : List Shard} {i : Nat} {x : Shard}
    (hl : ShardsInv l) (hx : x.size = sumSizes x.entries) :
    ShardsInv (l.set i x) := by
  intro sh hsh
  rcases List.mem_or_eq_of_mem_set hsh with hmem | heq
  · exact hl sh hmem
  · subst heq; exact hx

lemma tailTotal_append (l1 l2 : List Shard) :
    tailTotal (l1 ++ l2) = tailTotal l1 + tailTotal l2 := by
  induction l1 with
  | nil => simp [tailTotal]
  | cons a t ih => simp [tailTotal, ih]; omega

/-! ### Frame and pointwise characterization of the eviction loop -/

lemma evictFromShard_frame (σ : CacheState) (i : Nat) :
    (Cache.evictFromShard σ i).config = σ.config ∧
    (Cache.evictFromShard σ i).closed = σ.closed ∧
    (Cache.evictFromShard σ i).totalHits = σ.totalHits ∧
    (Cache.evictFromShard σ i).totalMiss = σ.totalMiss ∧
    (Cache.evictFromShard σ i).shards.length = σ.shards.length := by
  unfold Cache.evictFromShard
  split
  · simp
  · split
    · simp
    · simp

lemma evictFromShard_at (σ : CacheState) (i : Nat) (sh : Shard)
    (hsh : σ.shards[i]? = some sh) :
    (Cache.evictFromShard σ i).shards = σ.shards.set i (evictOne sh) ∧
    (Cache.evictFromShard σ i).totalSize = σ.totalSize - tailSize sh := by
  unfold Cache.evictFromShard
  rw [hsh]
  cases hv : sh.entries.getLast? with
  | none => simp [evictOne, tailSize, hv, set_self σ.shards i sh hsh]
  | some v => simp [evictOne, tailSize, hv]

/-- Full characterization of `(List.range m).foldl Cache.evictFromShard σ`:
it acts pointwise as `evictOne` on the shards with index below `m`, leaves
every other shard and all non-size fields unchanged, and lowers the
process-wide size by the total of the removed tail sizes. -/
lemma foldl_evict_spec (m : Nat) (σ : CacheState) (hm : m ≤ σ.shards.length) :
    (((List.range m).foldl Cache.evictFromShard σ).config = σ.config) ∧
    (((List.range m).foldl Cache.evictFromShard σ).closed = σ.closed) ∧
    (((List.range m).foldl Cache.evictFromShard σ).totalHits = σ.totalHits) ∧
    (((List.range m).foldl Cache.evictFromShard σ).totalMiss = σ.totalMiss) ∧
    (((List.range m).foldl Cache.evictFromShard σ).shards.length = σ.shards.length) ∧
    (∀ j : Nat, ((List.range m).foldl Cache.evictFromShard σ).shards[j]? =
        if j < m then (σ.shards[j]?).map evictOne else σ.shards[j]?) ∧
    ((List.range m).foldl Cache.evictFromShard σ).totalSize =
      σ.totalSize - tailTotal (σ.shards.take m) := by
  induction m with
  | zero => simp [tailTotal]
  | succ n ih =>
    obtain ⟨hc, hcl, hh, hm2, hlen, hj, ht⟩ := ih (by omega)
    rw [List.range_succ, List.foldl_append, List.foldl_cons, List.foldl_nil]
    have hnlt : n < σ.shards.length := by omega
    have hget : σ.shards[n]? = some σ.shards[n] := List.getElem?_eq_getElem hnlt
    have hgetn : ((List.range n).foldl Cache.evictFromShard σ).shards[n]? =
        some σ.shards[n] := by
      rw [hj n]
      simp [hget]
    obtain ⟨hsh', ht'⟩ :=
      evictFromShard_at ((List.range n).foldl Cache.evictFromShard σ) n σ.shards[n] hgetn
    obtain ⟨fc, fcl, fh, fm, flen⟩ :=
      evictFromShard_frame ((List.range n).foldl Cache.evictFromShard σ) n
    refine ⟨by rw [fc, hc], by rw [fcl, hcl], by rw [fh, hh], by rw [fm, hm2],
      by rw [flen, hlen], ?_, ?_⟩
    · intro j
      rw [hsh']
      by_cases hje : j = n
      · subst hje
        rw [List.getElem?_set_eq_of_lt _ (by rw [hlen]; omega)]
        simp [hget]
      · rw [List.getElem?_set_ne (by omega), hj j]
        by_cases hjn : j < n
        · rw [if_pos hjn, if_pos (show j < n + 1 by omega)]
        · rw [if_neg hjn, if_neg (show ¬ j < n + 1 by omega)]
    · rw [ht', ht]
      have htake : σ.shards.take (n + 1) = σ.shards.take n ++ [σ.shards[n]] := by
        rw [List.take_succ, hget]
        rfl
      rw [htake, tailTotal_append]
      simp [tailTotal]
      omega

/-! ### Preservation of the size-accounting invariant -/

lemma inv_update {σ σ2 : CacheState} {i : Nat} {sh sh1 : Shard}
    (hsh : σ.shards[i]? = some sh) (h : Inv σ)
    (hsize : sh1.size - sumSizes sh1.entries = sh.size - sumSizes sh.entries)
    (hsh2 : σ2.shards = σ.shards.set i sh1)
    (ht : σ2.totalSize = σ.totalSize + (sh1.size - sh.size)) :
    Inv σ2 := by
  obtain ⟨h1, h2⟩ := h
  have hs := h1 sh (getElem?_some_mem hsh)
  constructor
  · rw [hsh2]
    apply shardsInv_set h1
    omega
  · rw [ht, hsh2, sumShardSizes_set σ.shards i sh1 sh hsh]
    omega

lemma inv_evictFromShard (σ : CacheState) (i : Nat) (h : Inv σ) :
    Inv (Cache.evictFromShard σ i) := by
  rcases hsh : σ.shards[i]? with _ | sh
  · unfold Cache.evictFromShard
    rw [hsh]
    exact h
  · obtain ⟨hsh', ht'⟩ := evictFromShard_at σ i sh hsh
    refine inv_update hsh h ?_ hsh' ?_
    · rcases hv : sh.entries.getLast? with _ | v
      · simp only [evictOne, hv]
      · have hd := sumSizes_dropLast sh.entries v hv
        simp only [evictOne, hv]
        omega
    · rw [ht']
      rcases hv : sh.entries.getLast? with _ | v
      · simp only [evictOne, tailSize, hv]
        omega
      · simp only [evictOne, tailSize, hv]
        omega

lemma inv_foldl_evict (l : List Nat) (σ : CacheState) (h : Inv σ) :
    Inv (l.foldl Cache.evictFromShard σ) := by
  induction l generalizing σ with
  | nil => exact h
  | cons a t ih => exact ih _ (inv_evictFromShard σ a h)

lemma inv_evictIfNeeded (holding : Option Nat) (σ σ' : CacheState) (h : Inv σ)
    (he : Cache.evictIfNeeded holding σ = some σ') : Inv σ' := by
  cases holding with
  | none =>
    simp only [Cache.evictIfNeeded] at he
    split at he
    · cases he
      exact h
    · split at he
      · cases he
        exact inv_foldl_evict _ _ h
      · cases he
  | some j =>
    simp only [Cache.evictIfNeeded] at he
    split at he
    · cases he
      exact h
    · split at he
      · split at he
        · cases he
        · cases he
          exact inv_foldl_evict _ _ h
      · cases he



lemma inv_Set (now : Int) (σ : CacheState) (k : Key) (v : GoValue) (ttl : Option Int)
    (σ' : CacheState) (r : SetResult) (hI : Inv σ)
    (hs : Cache.Set now σ k v ttl = some (σ', r)) : Inv σ' := by
  simp only [Cache.Set] at hs
  split at hs
  · simp only [Option.some.injEq, Prod.mk.injEq] at hs
    obtain ⟨h1, h2⟩ := hs
    subst h1
    exact hI
  · split at hs
    · cases hs
    · rename_i sh hsh
      split at hs
      · rename_i old hlk
        obtain ⟨σ2, he2, hpair⟩ := Option.map_eq_some'.mp hs
        simp only [Prod.mk.injEq] at hpair
        obtain ⟨hp1, hp2⟩ := hpair
        subst hp1
        refine inv_evictIfNeeded _ _ _ ?_ he2
        refine inv_update hsh hI ?_ rfl ?_
        · have hd := sumSizes_removeKey k sh.entries old hlk
          simp only [sumSizes]
          omega
        · simp only []
          omega
      · rename_i hlk
        obtain ⟨σ2, he2, hpair⟩ := Option.map_eq_some'.mp hs
        simp only [Prod.mk.injEq] at hpair
        obtain ⟨hp1, hp2⟩ := hpair
        subst hp1
        refine inv_evictIfNeeded _ _ _ ?_ he2
        refine inv_update hsh hI ?_ rfl ?_
        · simp only [sumSizes]
          omega
        · simp only []
          omega


lemma inv_Get (now : Int) (σ : CacheState) (k : Key) (σ' : CacheState) (r : Option GoValue)
    (hI : Inv σ) (hg : Cache.Get now σ k = some (σ', r)) : Inv σ' := by
  simp only [Cache.Get] at hg
  split at hg
  · simp only [Option.some.injEq, Prod.mk.injEq] at hg
    obtain ⟨h1, h2⟩ := hg
    subst h1
    exact hI
  · split at hg
    · cases hg
    · rename_i sh hsh
      split at hg
      · simp only [Option.some.injEq, Prod.mk.injEq] at hg
        obtain ⟨h1, h2⟩ := hg
        subst h1
        refine inv_update hsh hI ?_ rfl ?_
        · simp only []
        · simp only []
          omega
      · rename_i e hlk
        split at hg
        · simp only [Option.some.injEq, Prod.mk.injEq] at hg
          obtain ⟨h1, h2⟩ := hg
          subst h1
          refine inv_update hsh hI ?_ rfl ?_
          · simp only []
          · simp only []
            omega
        · simp only [Option.some.injEq, Prod.mk.injEq] at hg
          obtain ⟨h1, h2⟩ := hg
          subst h1
          refine inv_update hsh hI ?_ rfl ?_
          · have hd := sumSizes_removeKey k sh.entries e hlk
            simp only [sumSizes]
            omega
          · simp only []
            omega

lemma inv_Delete (σ : CacheState) (k : Key) (σ' : CacheState) (b : Bool)
    (hI : Inv σ) (hd : Cache.Delete σ k = some (σ', b)) : Inv σ' := by
  simp only [Cache.Delete] at hd
  split at hd
  · simp only [Option.some.injEq, Prod.mk.injEq] at hd
    obtain ⟨h1, h2⟩ := hd
    subst h1
    exact hI
  · split at hd
    · cases hd
    · rename_i sh hsh
      split at hd
      · simp only [Option.some.injEq, Prod.mk.injEq] at hd
        obtain ⟨h1, h2⟩ := hd
        subst h1
        exact hI
      · rename_i e hlk
        simp only [Option.some.injEq, Prod.mk.injEq] at hd
        obtain ⟨h1, h2⟩ := hd
        subst h1
        refine inv_update hsh hI ?_ rfl ?_
        · have hde := sumSizes_removeKey k sh.entries e hlk
          simp only []
          omega
        · simp only []
          omega

lemma sumShardSizes_clear (l : List Shard) :
    sumShardSizes (l.map (fun sh => { sh with entries := [], size := 0 })) = 0 := by
  induction l with
  | nil => simp [sumShardSizes]
  | cons a t ih => simp [sumShardSizes, ih]

lemma inv_Clear (σ : CacheState) : Inv (Cache.Clear σ) := by
  constructor
  · intro sh hsh
    simp only [Cache.Clear, List.mem_map] at hsh
    obtain ⟨a, _, ha⟩ := hsh
    subst ha
    simp [sumSizes]
  · simp [Cache.Clear, sumShardSizes_clear]

lemma sumShardSizes_removeExpired (now : Int) (l : List Shard) :
    sumShardSizes (l.map (Shard.removeExpired now)) = sumShardSizes l - expiredTotal now l := by
  induction l with
  | nil => simp [sumShardSizes, expiredTotal]
  | cons a t ih =>
    simp [sumShardSizes, expiredTotal, Shard.removeExpired, ih]
    omega

lemma inv_cleanup (now : Int) (σ : CacheState) (hI : Inv σ) :
    Inv (Cache.cleanupExpired now σ) := by
  obtain ⟨h1, h2⟩ := hI
  constructor
  · intro sh hsh
    simp only [Cache.cleanupExpired, List.mem_map] at hsh
    obtain ⟨a, ha, hae⟩ := hsh
    subst hae
    have hia := h1 a ha
    have hf := sumSizes_filter (fun e => e.isExpired now) a.entries
    simp only [Shard.removeExpired]
    omega
  · simp only [Cache.cleanupExpired, sumShardSizes_removeExpired]
    omega

lemma sumShardSizes_replicate (n : Nat) : sumShardSizes (List.replicate n newShard) = 0 := by
  induction n with
  | zero => simp [sumShardSizes]
  | succ m ih => simpa [List.replicate, sumShardSizes, newShard] using ih

lemma inv_New (cfgArg : Option Config) (σ : CacheState) (h : New cfgArg = some σ) :
    Inv σ := by
  simp only [New] at h
  split at h
  · cases h
  · cases h
    constructor
    · intro sh hsh
      have he := List.eq_of_mem_replicate hsh
      subst he
      simp [newShard, sumSizes]
    · simp [sumShardSizes_replicate]

lemma inv_Close (σ : CacheState) (hI : Inv σ) : Inv (Cache.Close σ).1 := by
  unfold Cache.Close
  split
  · exact hI
  · exact hI

theorem C5_size_invariant (σ : CacheState) (h : Reachable σ) : Inv σ := by
  induction h with
  | new cfgArg σ hn => exact inv_New cfgArg σ hn
  | set σ σ' now k v ttl r hr hs ih => exact inv_Set now σ k v ttl σ' r ih hs
  | get σ σ' now k r hr hg ih => exact inv_Get now σ k σ' r ih hg
  | del σ σ' k b hr hd ih => exact inv_Delete σ k σ' b ih hd
  | clear σ hr ih => exact inv_Clear σ
  | close σ hr ih => exact inv_Close σ ih
  | cleanup σ now hr ih => exact inv_cleanup now σ ih
  | evict σ σ' hr he ih => exact inv_evictIfNeeded none σ σ' ih he


/-! ### Behaviour of a successful `Set` -/

lemma evictIfNeeded_holding_spec (i : Nat) (σ1 σ2 : CacheState)
    (he : Cache.evictIfNeeded (some i) σ1 = some σ2) :
    σ2.config = σ1.config ∧ σ2.closed = σ1.closed ∧ σ2.shards[i]? = σ1.shards[i]? := by
  simp only [Cache.evictIfNeeded] at he
  split at he
  · cases he
    exact ⟨rfl, rfl, rfl⟩
  · split at he
    · split at he
      · cases he
      · rename_i hle hnot
        cases he
        obtain ⟨hc, hcl, _, _, _, hj, _⟩ := foldl_evict_spec _ σ1 hle
        refine ⟨hc, hcl, ?_⟩
        rw [hj i, if_neg hnot]
    · cases he

lemma set_ok_lookup (now : Int) (σ : CacheState) (k : Key) (v : GoValue)
    (ttl : Option Int) (σ' : CacheState)
    (hs : Cache.Set now σ k v ttl = some (σ', SetResult.ok)) :
    σ'.config = σ.config ∧ σ'.closed = false ∧ σ.closed = false ∧
    ∃ sh, σ'.shards[shardIdx σ.config k]? = some sh ∧
      lookupEntry k sh.entries =
        some { key := k, value := v, size := calculateSize k v,
               expiry := computeExpiry now ttl σ.config.defaultTTL } := by
  simp only [Cache.Set] at hs
  split at hs
  · simp at hs
  · rename_i hcl
    rw [Bool.not_eq_true] at hcl
    split at hs
    · cases hs
    · rename_i sh hsh
      have hlt := getElem?_some_lt hsh
      split at hs
      · rename_i old hlk
        obtain ⟨σ2, he2, hpair⟩ := Option.map_eq_some'.mp hs
        simp only [Prod.mk.injEq] at hpair
        obtain ⟨hp1, hp2⟩ := hpair
        subst hp1
        obtain ⟨hc2, hcl2, hsh2⟩ := evictIfNeeded_holding_spec _ _ _ he2
        have h1 : σ2.shards[shardIdx σ.config k]? =
            some { entries := ({ key := k, value := v, size := calculateSize k v,
                                 expiry := computeExpiry now ttl σ.config.defaultTTL } ::
                               removeKey k sh.entries),
                   size := sh.size + (calculateSize k v - old.size),
                   hitCount := sh.hitCount, missCount := sh.missCount } := by
          rw [hsh2]
          exact List.getElem?_set_eq_of_lt _ hlt
        exact ⟨hc2, by rw [hcl2]; exact hcl, hcl, _, h1, by simp [lookupEntry]⟩
      · rename_i hlk
        obtain ⟨σ2, he2, hpair⟩ := Option.map_eq_some'.mp hs
        simp only [Prod.mk.injEq] at hpair
        obtain ⟨hp1, hp2⟩ := hpair
        subst hp1
        obtain ⟨hc2, hcl2, hsh2⟩ := evictIfNeeded_holding_spec _ _ _ he2
        have h1 : σ2.shards[shardIdx σ.config k]? =
            some { entries := ({ key := k, value := v, size := calculateSize k v,
                                 expiry := computeExpiry now ttl σ.config.defaultTTL } ::
                               sh.entries),
                   size := sh.size + calculateSize k v,
                   hitCount := sh.hitCount, missCount := sh.missCount } := by
          rw [hsh2]
          exact List.getElem?_set_eq_of_lt _ hlt
        exact ⟨hc2, by rw [hcl2]; exact hcl, hcl, _, h1, by simp [lookupEntry]⟩

lemma computeExpiry_not_expired (now : Int) (ttl : Option Int) (dT : Int)
    (k : Key) (v : GoValue) (s : Int) :
    Entry.isExpired now
      { key := k, value := v, size := s, expiry := computeExpiry now ttl dT } = false := by
  simp only [Entry.isExpired]
  rw [decide_eq_false_iff_not]
  simp only [computeExpiry, never]
  cases ttl with
  | none =>
    split
    · intro h
      omega
    · intro h
      omega
  | some d =>
    split
    · intro h
      omega
    · split
      · intro h
        omega
      · intro h
        omega

/-- Claim C3: for every key k and value v, after `set(k, v)` returns ok on an
open cache, with no intervening operations on k, `get(k)` returns (v, true). -/
theorem C3_set_then_get (now : Int) (σ σ' : CacheState) (k : Key) (v : GoValue)
    (ttl : Option Int) (hs : Cache.Set now σ k v ttl = some (σ', SetResult.ok)) :
    (Cache.Get now σ' k).map Prod.snd = some (some v) := by
  obtain ⟨hcfg, hcl, hocl, sh, hsh, hlk⟩ := set_ok_lookup now σ k v ttl σ' hs
  simp only [Cache.Get, hcl, Bool.false_eq_true, if_false, hcfg, hsh, hlk,
    computeExpiry_not_expired, Option.map_some]
  rfl


/-! ### Claim C6: TTL selection on set -/

/-- Claim C6: for every `set(key, value, ttl)` that returns ok: a supplied
positive ttl gives expiry now + ttl; otherwise a positive configured default
TTL gives expiry now + defaultTTL; otherwise the sentinel `never`; a supplied
ttl ≤ 0 behaves as if no ttl were supplied. -/
theorem C6_ttl_selection (now : Int) (σ σ' : CacheState) (k : Key) (v : GoValue)
    (ttl : Option Int) (hs : Cache.Set now σ k v ttl = some (σ', SetResult.ok)) :
    ∃ sh e, σ'.shards[shardIdx σ.config k]? = some sh ∧
      lookupEntry k sh.entries = some e ∧
      e.expiry = computeExpiry now ttl σ.config.defaultTTL ∧
      (∀ d, ttl = some d → 0 < d → e.expiry = now + d) ∧
      (∀ d, ttl = some d → d ≤ 0 →
        e.expiry = if 0 < σ.config.defaultTTL then now + σ.config.defaultTTL else never) ∧
      (ttl = none →
        e.expiry = if 0 < σ.config.defaultTTL then now + σ.config.defaultTTL else never) := by
  obtain ⟨hcfg, hcl, hocl, sh, hsh, hlk⟩ := set_ok_lookup now σ k v ttl σ' hs
  refine ⟨sh, _, hsh, hlk, rfl, ?_, ?_, ?_⟩
  · intro d hd hpos
    subst hd
    simp [computeExpiry, hpos]
  · intro d hd hnp
    subst hd
    simp only [computeExpiry]
    rw [if_neg (by omega)]
  · intro hd
    subst hd
    simp only [computeExpiry]

def w6cfg : Config :=
  { maxMemoryBytes := 1000, shardCount := 1, defaultTTL := 7, cleanupInterval := 1 }

def w6state : CacheState :=
  { config := w6cfg, shards := [newShard]
    totalSize := 0, totalHits := 0, totalMiss := 0, closed := false }

def w6after : CacheState :=
  { config := w6cfg
    shards := [{ entries := [{ key := [97], value := GoValue.boolV true,
                               size := 66, expiry := 5 }]
                 size := 66, hitCount := 0, missCount := 0 }]
    totalSize := 66, totalHits := 0, totalMiss := 0, closed := false }

theorem C6_ttl_selection_witness :
    ∃ sh e, w6after.shards[shardIdx w6cfg [97]]? = some sh ∧
      lookupEntry [97] sh.entries = some e ∧ e.expiry = 0 + 5 := by
  obtain ⟨sh, e, h1, h2, _, h4, _, _⟩ :=
    C6_ttl_selection 0 w6state w6after [97] (GoValue.boolV true) (some 5) (by decide)
  exact ⟨sh, e, h1, h2, h4 5 rfl (by decide)⟩

/-! ### Claim C7: get on an expired entry -/

/-- Claim C7: a `get` on an open cache finding an entry that is expired
(expiry ≠ never, now past expiry) returns a miss, incrementing the shard and
process-wide miss counters and never returning the stored value; in
particular after `set(k, v, ttl)` and an elapse of more than ttl, `get(k)`
misses. -/
theorem C7_expired_get_miss :
    (∀ (now : Int) (σ : CacheState) (k : Key) (sh : Shard) (e : Entry),
      σ.closed = false →
      σ.shards[shardIdx σ.config k]? = some sh →
      lookupEntry k sh.entries = some e →
      0 < e.expiry → e.expiry < now →
      Cache.Get now σ k =
        some ({ σ with
                  shards := σ.shards.set (shardIdx σ.config k)
                    { sh with missCount := sh.missCount + 1 }
                  totalMiss := σ.totalMiss + 1 }, none)) ∧
    (∀ (now now2 d : Int) (σ σ' : CacheState) (k : Key) (v : GoValue),
      0 ≤ now → 0 < d → now + d < now2 →
      Cache.Set now σ k v (some d) = some (σ', SetResult.ok) →
      (Cache.Get now2 σ' k).map Prod.snd = some none) := by
  constructor
  · intro now σ k sh e hcl hsh hlk hpos hlt
    have hexp : e.isExpired now = true := by
      simp only [Entry.isExpired]
      rw [decide_eq_true_eq]
      exact ⟨hpos, hlt⟩
    simp only [Cache.Get, hcl, Bool.false_eq_true, if_false, hsh, hlk, hexp]
    rw [if_pos trivial]
  · intro now now2 d σ σ' k v h0 hd hlt hs
    obtain ⟨hcfg, hcl, hocl, sh, hsh, hlk⟩ := set_ok_lookup now σ k v (some d) σ' hs
    have hexp : Entry.isExpired now2
        { key := k, value := v, size := calculateSize k v,
          expiry := computeExpiry now (some d) σ.config.defaultTTL } = true := by
      simp only [Entry.isExpired, computeExpiry, if_pos hd]
      rw [decide_eq_true_eq]
      constructor <;> omega
    simp only [Cache.Get, hcl, Bool.false_eq_true, if_false, hcfg, hsh, hlk, hexp]
    rfl

def w7entry : Entry :=
  { key := [97], value := GoValue.boolV true, size := 66, expiry := 5 }

def w7state : CacheState :=
  { config := { maxMemoryBytes := 1000, shardCount := 1, defaultTTL := 0, cleanupInterval := 1 }
    shards := [{ entries := [w7entry], size := 66, hitCount := 0, missCount := 0 }]
    totalSize := 66, totalHits := 0, totalMiss := 0, closed := false }

def w7after : CacheState :=
  { config := { maxMemoryBytes := 1000, shardCount := 1, defaultTTL := 0, cleanupInterval := 1 }
    shards := [{ entries := [w7entry], size := 66, hitCount := 0, missCount := 1 }]
    totalSize := 66, totalHits := 0, totalMiss := 1, closed := false }

def w7fresh : CacheState :=
  { config := { maxMemoryBytes := 1000, shardCount := 1, defaultTTL := 0, cleanupInterval := 1 }
    shards := [newShard]
    totalSize := 0, totalHits := 0, totalMiss := 0, closed := false }

theorem C7_expired_get_miss_witness :
    Cache.Get 10 w7state [97] = some (w7after, none) ∧
    (Cache.Get 12 w7state [97]).map Prod.snd = some none := by
  constructor
  · have h := C7_expired_get_miss.1 10 w7state [97]
      { entries := [w7entry], size := 66, hitCount := 0, missCount := 0 } w7entry
      (by decide) (by decide) (by decide) (by decide) (by decide)
    rw [h]
    decide
  · exact C7_expired_get_miss.2 0 12 5 w7fresh w7state [97] (GoValue.boolV true)
      (by decide) (by decide) (by decide) (by decide)

/-! ### Claim C8: close is idempotent-with-error -/

/-- Claim C8: the first `close()` returns ok (flipping the closed flag);
on any closed cache a further `close()` returns CacheClosed, every `set`
returns CacheClosed, every `get` returns (_, false) and every `delete`
returns false. -/
theorem C8_close_idempotent (σ : CacheState) (h : σ.closed = false) :
    Cache.Close σ = ({ σ with closed := true }, SetResult.ok) ∧
    (Cache.Close (Cache.Close σ).1).2 = SetResult.cacheClosed ∧
    (∀ σc : CacheState, σc.closed = true →
      Cache.Close σc = (σc, SetResult.cacheClosed) ∧
      (∀ (now : Int) (k : Key) (v : GoValue) (ttl : Option Int),
        Cache.Set now σc k v ttl = some (σc, SetResult.cacheClosed)) ∧
      (∀ (now : Int) (k : Key), Cache.Get now σc k = some (σc, none)) ∧
      (∀ k : Key, Cache.Delete σc k = some (σc, false))) := by
  refine ⟨by simp [Cache.Close, h], by simp [Cache.Close, h], ?_⟩
  intro σc hc
  refine ⟨by simp [Cache.Close, hc], ?_, ?_, ?_⟩
  · intro now k v ttl
    simp [Cache.Set, hc]
  · intro now k
    simp [Cache.Get, hc]
  · intro k
    simp [Cache.Delete, hc]

def w8open : CacheState :=
  { config := { maxMemoryBytes := 1000, shardCount := 1, defaultTTL := 0, cleanupInterval := 1 }
    shards := [newShard]
    totalSize := 0, totalHits := 0, totalMiss := 0, closed := false }

theorem C8_close_idempotent_witness :
    Cache.Close w8open = ({ w8open with closed := true }, SetResult.ok) ∧
    Cache.Close { w8open with closed := true } =
      ({ w8open with closed := true }, SetResult.cacheClosed) ∧
    Cache.Set 0 { w8open with closed := true } [97] (GoValue.boolV true) none =
      some ({ w8open with closed := true }, SetResult.cacheClosed) ∧
    Cache.Get 0 { w8open with closed := true } [97] =
      some ({ w8open with closed := true }, none) ∧
    Cache.Delete { w8open with closed := true } [97] =
      some ({ w8open with closed := true }, false) := by
  obtain ⟨h1, h2, h3⟩ := C8_close_idempotent w8open (by decide)
  obtain ⟨hc, hset, hget, hdel⟩ := h3 { w8open with closed := true } (by decide)
  exact ⟨h1, hc, hset 0 [97] (GoValue.boolV true) none, hget 0 [97], hdel [97]⟩

/-! ### Claim C9: effect and frame of clear -/

/-- Claim C9: `clear()` empties every shard and zeroes every shard size and
the process-wide size, leaving all hit and miss counters (global and
per-shard) and everything else unchanged. -/
theorem C9_clear_effect (σ : CacheState) :
    (Cache.Clear σ).totalSize = 0 ∧
    (Cache.Clear σ).totalHits = σ.totalHits ∧
    (Cache.Clear σ).totalMiss = σ.totalMiss ∧
    (Cache.Clear σ).closed = σ.closed ∧
    (Cache.Clear σ).config = σ.config ∧
    ∀ i : Nat, (Cache.Clear σ).shards[i]? =
      (σ.shards[i]?).map (fun sh => { sh with entries := [], size := 0 }) := by
  refine ⟨rfl, rfl, rfl, rfl, rfl, ?_⟩
  intro i
  simp [Cache.Clear]

/-! ### Claim C10: a closed cache rejects without mutating -/

/-- Claim C10: on a closed cache, `set`, `get` and `delete` return
immediately (CacheClosed, miss, false) with the state — entries, sizes and
all counters — unchanged; in particular a `get` on a closed cache does not
count a miss. -/
theorem C10_closed_noop (σ : CacheState) (h : σ.closed = true) (now : Int) (k : Key)
    (v : GoValue) (ttl : Option Int) :
    Cache.Set now σ k v ttl = some (σ, SetResult.cacheClosed) ∧
    Cache.Get now σ k = some (σ, none) ∧
    Cache.Delete σ k = some (σ, false) := by
  refine ⟨?_, ?_, ?_⟩ <;> simp [Cache.Set, Cache.Get, Cache.Delete, h]

def w10closed : CacheState :=
  { config := { maxMemoryBytes := 1000, shardCount := 1, defaultTTL := 0, cleanupInterval := 1 }
    shards := [newShard]
    totalSize := 0, totalHits := 0, totalMiss := 0, closed := true }

theorem C10_closed_noop_witness :
    Cache.Set 0 w10closed [97] (GoValue.boolV true) none =
      some (w10closed, SetResult.cacheClosed) ∧
    Cache.Get 0 w10closed [97] = some (w10closed, none) ∧
    Cache.Delete w10closed [97] = some (w10closed, false) :=
  C10_closed_noop w10closed (by decide) 0 [97] (GoValue.boolV true) none


def w3cfg : Config :=
  { maxMemoryBytes := 1000, shardCount := 1, defaultTTL := 0, cleanupInterval := 1 }

def w3state : CacheState :=
  { config := w3cfg, shards := [newShard]
    totalSize := 0, totalHits := 0, totalMiss := 0, closed := false }

def w3after : CacheState :=
  { config := w3cfg
    shards := [{ entries := [{ key := [97], value := GoValue.str [98],
                               size := 66, expiry := 0 }]
                 size := 66, hitCount := 0, missCount := 0 }]
    totalSize := 66, totalHits := 0, totalMiss := 0, closed := false }

theorem C3_set_then_get_witness :
    (Cache.Get 0 w3after [97]).map Prod.snd = some (some (GoValue.str [98])) :=
  C3_set_then_get 0 w3state w3after [97] (GoValue.str [98]) none (by decide)

/-! ### Claim C1: construction and configuration validation -/

def badMemCfg : Config :=
  { maxMemoryBytes := 0, shardCount := 4, defaultTTL := 0, cleanupInterval := 1 }

def badTTLCfg : Config :=
  { maxMemoryBytes := 1024, shardCount := 4, defaultTTL := -5, cleanupInterval := 1 }

/-- Claim C1 counterexample: `New` does not reject a configuration that
violates max_memory_bytes > 0 (it performs no validation at all), and
`Config.Validate` itself accepts a negative default TTL, so construction
rejects neither of these two constraint-violating configurations. -/
theorem C1_counterexample :
    (badMemCfg.maxMemoryBytes ≤ 0 ∧ (New (some badMemCfg)).isSome = true) ∧
    (badTTLCfg.defaultTTL < 0 ∧ badTTLCfg.Validate = none) := by
  decide

/-- Claim C1 amended: `New` never validates and constructs a cache for every
configuration (with a non-negative shard count); the separate — never invoked
by `New` — `Config.Validate` accepts exactly the configurations satisfying
max_memory_bytes > 0, 1 ≤ shard_count ≤ 65536 and cleanup_interval > 0
(default_ttl is not checked), and rejects the rest with a structured error
naming the offending field. -/
theorem C1_amended_validate (c : Config) :
    (0 ≤ c.shardCount → (New (some c)).isSome = true) ∧
    (c.Validate = none ↔
      0 < c.maxMemoryBytes ∧ 0 < c.shardCount ∧ c.shardCount ≤ 65536 ∧
        0 < c.cleanupInterval) ∧
    (∀ e, c.Validate = some e →
      (e.field = "MaxMemoryBytes" ∧ c.maxMemoryBytes ≤ 0) ∨
      (e.field = "ShardCount" ∧ (c.shardCount ≤ 0 ∨ 65536 < c.shardCount)) ∨
      (e.field = "CleanupInterval" ∧ c.cleanupInterval ≤ 0)) := by
  refine ⟨?_, ?_, ?_⟩
  · intro h
    simp [New, Int.not_lt.mpr h]
  · unfold Config.Validate
    split_ifs with h1 h2 h3 h4 <;> simp <;> omega
  · intro e he
    unfold Config.Validate at he
    split_ifs at he with h1 h2 h3 h4
    · simp only [Option.some.injEq] at he
      subst he
      exact Or.inl ⟨rfl, h1⟩
    · simp only [Option.some.injEq] at he
      subst he
      exact Or.inr (Or.inl ⟨rfl, Or.inl h2⟩)
    · simp only [Option.some.injEq] at he
      subst he
      exact Or.inr (Or.inl ⟨rfl, Or.inr h3⟩)
    · simp only [Option.some.injEq] at he
      subst he
      exact Or.inr (Or.inr ⟨rfl, h4⟩)

theorem C1_amended_validate_witness :
    (New (some badMemCfg)).isSome = true ∧
    (((⟨"MaxMemoryBytes", "must be greater than 0"⟩ : ErrInvalidConfig).field =
          "MaxMemoryBytes" ∧ badMemCfg.maxMemoryBytes ≤ 0) ∨
     ((⟨"MaxMemoryBytes", "must be greater than 0"⟩ : ErrInvalidConfig).field =
          "ShardCount" ∧ (badMemCfg.shardCount ≤ 0 ∨ 65536 < badMemCfg.shardCount)) ∨
     ((⟨"MaxMemoryBytes", "must be greater than 0"⟩ : ErrInvalidConfig).field =
          "CleanupInterval" ∧ badMemCfg.cleanupInterval ≤ 0)) :=
  ⟨(C1_amended_validate badMemCfg).1 (by decide),
   (C1_amended_validate badMemCfg).2.2
     ⟨"MaxMemoryBytes", "must be greater than 0"⟩ (by decide)⟩

/-! ### Claim C2: the eviction check runs under the shard lock -/

def c2cfg : Config :=
  { maxMemoryBytes := 1, shardCount := 1, defaultTTL := 0, cleanupInterval := 1 }

def c2start : CacheState :=
  { config := c2cfg, shards := [newShard]
    totalSize := 0, totalHits := 0, totalMiss := 0, closed := false }

/-- Claim C2 (refuted by the code — code bug): cache.go calls
`evictIfNeeded` before the deferred `shard.mu.Unlock()` runs, so the eviction
check executes while the set caller still holds the shard write lock, and
`evictFromShard` then re-acquires that same lock.  At this concrete input the
fresh one-shard cache is open, the inserted 66-byte entry exceeds the 1-byte
budget, the eviction range is shard 0 — the very shard whose lock the caller
holds — and `Set` deadlocks (the model's `none`) instead of returning ok. -/
theorem C2_eviction_under_lock :
    New (some c2cfg) = some c2start ∧
    c2start.closed = false ∧
    Cache.Set 0 c2start [97] (GoValue.str [98]) none = none := by
  decide

/-! ### Claim C4: shape of one eviction pass -/

def c4cfg : Config :=
  { maxMemoryBytes := 1, shardCount := 4, defaultTTL := 0, cleanupInterval := 1 }

def c4fresh : CacheState :=
  { config := c4cfg, shards := [newShard, newShard, newShard, newShard]
    totalSize := 0, totalHits := 0, totalMiss := 0, closed := false }

def c4over : CacheState :=
  { config := c4cfg
    shards := [newShard, newShard, newShard,
               { entries := [{ key := [100], value := GoValue.str [98],
                               size := 66, expiry := 0 }]
                 size := 66, hitCount := 0, missCount := 0 }]
    totalSize := 66, totalHits := 0, totalMiss := 0, closed := false }

/-- Claim C4 counterexample: a reachable over-budget state (obtained by one
`set` of a key in shard 3 of 4 on a 1-byte-budget cache) on which the
eviction check removes nothing at all — the scanned prefix is exactly the
empty shard 0 — contradicting `for each, removes exactly one entry`. -/
theorem C4_counterexample :
    New (some c4cfg) = some c4fresh ∧
    Cache.Set 0 c4fresh [100] (GoValue.str [98]) none = some (c4over, SetResult.ok) ∧
    c4over.config.maxMemoryBytes < c4over.totalSize ∧
    (c4over.shards[3]?).map (fun sh => sh.entries.length) = some 1 ∧
    Cache.evictIfNeeded none c4over = some c4over := by
  decide

/-- Claim C4 amended: the eviction check is a no-op when
total_size ≤ max_memory_bytes; otherwise it visits the fixed prefix of
max(1, shard_count/4) shards once (no loop) and, for each, removes AT MOST
one entry — the tail of that shard's recency list, its least-recently-used
entry, when the shard is non-empty, and nothing when it is empty —
decrementing that shard's size and the process-wide size by the removed
entry's size, and touching nothing else. -/
theorem C4_amended_eviction (σ : CacheState)
    (hm : max 1 (σ.config.shardCount.toNat / 4) ≤ σ.shards.length) :
    (σ.totalSize ≤ σ.config.maxMemoryBytes → Cache.evictIfNeeded none σ = some σ) ∧
    (σ.config.maxMemoryBytes < σ.totalSize →
      ∃ σ', Cache.evictIfNeeded none σ = some σ' ∧
        σ'.config = σ.config ∧ σ'.closed = σ.closed ∧
        σ'.totalHits = σ.totalHits ∧ σ'.totalMiss = σ.totalMiss ∧
        σ'.shards.length = σ.shards.length ∧
        (∀ j : Nat, σ'.shards[j]? =
          if j < max 1 (σ.config.shardCount.toNat / 4)
          then (σ.shards[j]?).map evictOne
          else σ.shards[j]?) ∧
        σ'.totalSize = σ.totalSize -
          tailTotal (σ.shards.take (max 1 (σ.config.shardCount.toNat / 4)))) := by
  constructor
  · intro hle
    simp [Cache.evictIfNeeded, hle]
  · intro hgt
    obtain ⟨hc, hcl, hh, hm2, hlen, hj, ht⟩ := foldl_evict_spec _ σ hm
    refine ⟨(List.range (max 1 (σ.config.shardCount.toNat / 4))).foldl
      Cache.evictFromShard σ, ?_, hc, hcl, hh, hm2, hlen, hj, ht⟩
    simp only [Cache.evictIfNeeded]
    rw [if_neg (by omega), if_pos hm]

theorem C4_amended_eviction_witness :
    Cache.evictIfNeeded none c4fresh = some c4fresh ∧
    (∃ σ', Cache.evictIfNeeded none c4over = some σ' ∧
      σ'.config = c4over.config ∧ σ'.closed = c4over.closed ∧
      σ'.totalHits = c4over.totalHits ∧ σ'.totalMiss = c4over.totalMiss ∧
      σ'.shards.length = c4over.shards.length ∧
      (∀ j : Nat, σ'.shards[j]? =
        if j < max 1 (c4over.config.shardCount.toNat / 4)
        then (c4over.shards[j]?).map evictOne
        else c4over.shards[j]?) ∧
      σ'.totalSize = c4over.totalSize -
        tailTotal (c4over.shards.take (max 1 (c4over.config.shardCount.toNat / 4)))) :=
  ⟨(C4_amended_eviction c4fresh (by decide)).1 (by decide),
   (C4_amended_eviction c4over (by decide)).2 (by decide)⟩

def w5cfg : Config :=
  { maxMemoryBytes := 100, shardCount := 2, defaultTTL := 0, cleanupInterval := 1 }

def w5state : CacheState :=
  { config := w5cfg, shards := [newShard, newShard]
    totalSize := 0, totalHits := 0, totalMiss := 0, closed := false }

theorem C5_size_invariant_witness : Inv w5state :=
  C5_size_invariant w5state (Reachable.new (some w5cfg) w5state (by decide))


def w9state : CacheState :=
  { config := { maxMemoryBytes := 1000, shardCount := 1, defaultTTL := 0, cleanupInterval := 1 }
    shards := [{ entries := [{ key := [97], value := GoValue.boolV true,
                               size := 66, expiry := 0 }]
                 size := 66, hitCount := 2, missCount := 3 }]
    totalSize := 66, totalHits := 2, totalMiss := 3, closed := false }

theorem C9_clear_effect_witness :
    (Cache.Clear w9state).totalSize = 0 ∧
    (Cache.Clear w9state).totalHits = w9state.totalHits ∧
    (Cache.Clear w9state).totalMiss = w9state.totalMiss ∧
    (Cache.Clear w9state).closed = w9state.closed ∧
    (Cache.Clear w9state).config = w9state.config ∧
    ∀ i : Nat, (Cache.Clear w9state).shards[i]? =
      (w9state.shards[i]?).map (fun sh => { sh with entries := [], size := 0 }) :=
  C9_clear_effect w9state

end Fastcache
